import Mathlib

/-!
Shallow embedding of the Internship-LMS backend's progress-tracking core:
the relational store (users' enrollments, courses, chapters, progress rows,
certificates) and the controller operations `completeChapter`,
`getCourseProgress`, `getMyProgress`, `resetProgress` (progress controller),
`deleteChapter` (chapter controller), `checkCertificateEligibility`
(certificate service) and `getCertificate` (certificate controller).

Each SQL query of the source is translated as a pure function over an
explicit `Store`; row sets are lists, `LEFT JOIN` rows carry an
`Option ProgressRow`, and the PostgreSQL/JavaScript rounding is modelled
over `ℚ`.
-/

namespace LMS

/-- A row of the `courses` table (the columns the verified operations read). -/
structure Course where
  id : Nat
  mentorId : Nat
  deriving Repr, DecidableEq

/-- A row of the `chapters` table.  `sequenceOrder` is an integer column. -/
structure Chapter where
  id : Nat
  courseId : Nat
  sequenceOrder : Int
  deriving Repr, DecidableEq

/-- A row of the `progress` table: key (student_id, chapter_id), plus the
`course_id` column the insert writes and `reset` filters on. -/
structure ProgressRow where
  studentId : Nat
  chapterId : Nat
  courseId : Nat
  completed : Bool
  completedAt : Option Nat
  deriving Repr, DecidableEq

/-- A row of the `course_assignments` table. -/
structure Enrollment where
  courseId : Nat
  studentId : Nat
  deriving Repr, DecidableEq

/-- A row of the `certificates` table. -/
structure Certificate where
  id : Nat
  studentId : Nat
  courseId : Nat
  deriving Repr, DecidableEq

/-- The relational store.  `nextCertId` models the database assigning a
fresh primary key to an inserted certificate. -/
structure Store where
  courses : List Course
  chapters : List Chapter
  enrollments : List Enrollment
  progress : List ProgressRow
  certificates : List Certificate
  nextCertId : Nat
  deriving Repr, DecidableEq

/-- `SELECT id, course_id, sequence_order FROM chapters WHERE id = $1`,
taking the first row. -/
def findChapter (s : Store) (chapterId : Nat) : Option Chapter :=
  (s.chapters.filter (fun ch => ch.id == chapterId)).head?

/-- `SELECT id FROM course_assignments WHERE course_id = $1 AND student_id = $2`
has at least one row. -/
def isEnrolled (s : Store) (courseId studentId : Nat) : Bool :=
  s.enrollments.any (fun e => e.courseId == courseId && e.studentId == studentId)

/-- `SELECT ... FROM progress WHERE chapter_id = ... AND student_id = ...`. -/
def progressFor (s : Store) (studentId chapterId : Nat) : List ProgressRow :=
  s.progress.filter (fun p => p.studentId == studentId && p.chapterId == chapterId)

/-- The rows a `LEFT JOIN progress p ON ch.id = p.chapter_id AND
p.student_id = $1` produces for one chapter: one `none` row when no progress
row matches, else the matching rows. -/
def leftJoinProgress (s : Store) (studentId : Nat) (ch : Chapter) :
    List (Option ProgressRow) :=
  match progressFor s studentId ch.id with
  | [] => [none]
  | ps => ps.map some

/-- `p.completed` of a left-joined row; a `NULL` (absent) row is falsy. -/
def rowCompleted : Option ProgressRow → Bool
  | none => false
  | some p => p.completed

/-- `SELECT p.completed FROM chapters ch LEFT JOIN progress p ... WHERE
ch.course_id = $2 AND ch.sequence_order = $3` (the previous-chapter check). -/
def previousChapterRows (s : Store) (studentId courseId : Nat) (ord : Int) :
    List (Option ProgressRow) :=
  (s.chapters.filter (fun ch => ch.courseId == courseId && ch.sequenceOrder == ord)).flatMap
    (leftJoinProgress s studentId)

/-- `rows.length === 0 || !rows[0].completed` — when the sequential-access
guard rejects. -/
def prevCheckFails (rows : List (Option ProgressRow)) : Bool :=
  match rows with
  | [] => true
  | r :: _ => !(rowCompleted r)

/-- `SELECT ... FROM chapters WHERE course_id = $1` (all chapters of a course). -/
def courseChapters (s : Store) (courseId : Nat) : List Chapter :=
  s.chapters.filter (fun ch => ch.courseId == courseId)

/-- The joined rows of the completion-percentage aggregate:
`FROM chapters ch LEFT JOIN progress p ON ch.id = p.chapter_id AND
p.student_id = $1 WHERE ch.course_id = $2`. -/
def completionRows (s : Store) (studentId courseId : Nat) :
    List (Option ProgressRow) :=
  (courseChapters s courseId).flatMap (leftJoinProgress s studentId)

/-- `COUNT(*)` over the completion aggregate. -/
def totalChapters (s : Store) (studentId courseId : Nat) : Nat :=
  (completionRows s studentId courseId).length

/-- `COUNT(CASE WHEN p.completed = true THEN 1 END)` over the aggregate. -/
def completedChapters (s : Store) (studentId courseId : Nat) : Nat :=
  (completionRows s studentId courseId).countP rowCompleted

/-- JavaScript `Math.round(x * 100) / 100` (round half up to 2 decimals),
as the progress controller computes the completion percentage. -/
def round2 (x : ℚ) : ℚ :=
  ((⌊x * 100 + 1/2⌋ : ℤ) : ℚ) / 100

/-- `INSERT INTO progress ... ON CONFLICT (student_id, chapter_id) DO UPDATE
SET completed = true, completed_at = NOW() ... RETURNING *`.
Returns the updated store and the returned row. -/
def upsertProgress (s : Store) (studentId chapterId courseId now : Nat) :
    Store × ProgressRow :=
  if s.progress.any (fun p => p.studentId == studentId && p.chapterId == chapterId) then
    let upd := s.progress.map (fun p =>
      if p.studentId == studentId && p.chapterId == chapterId then
        { p with completed := true, completedAt := some now }
      else p)
    ({ s with progress := upd },
      match upd.filter (fun p => p.studentId == studentId && p.chapterId == chapterId) with
      | r :: _ => r
      | [] => ⟨studentId, chapterId, courseId, true, some now⟩)
  else
    let r : ProgressRow := ⟨studentId, chapterId, courseId, true, some now⟩
    ({ s with progress := s.progress ++ [r] }, r)

/-- The error responses of `completeChapter` (progress controller). -/
inductive CompleteError where
  /-- 404 `Chapter not found` -/
  | chapterNotFound
  /-- 403 `You are not enrolled in this course` -/
  | notEnrolled
  /-- 403 `Cannot complete chapter` / `You must complete the previous chapter first` -/
  | previousIncomplete
  /-- 400 `Chapter already completed` -/
  | alreadyCompleted
  deriving Repr, DecidableEq

/-- The HTTP status the controller sends for each error response. -/
def CompleteError.status : CompleteError → Nat
  | .chapterNotFound => 404
  | .notEnrolled => 403
  | .previousIncomplete => 403
  | .alreadyCompleted => 400

/-- The `completion` object of a successful `completeChapter` response. -/
structure Completion where
  total_chapters : Nat
  completed_chapters : Nat
  percentage : ℚ
  deriving Repr, DecidableEq

/-- `POST /progress/:chapterId/complete` — `completeChapter` of the progress
controller: chapter lookup (404), enrollment check (403), sequential-access
check on the previous chapter (403), duplicate check (400), then the upsert
and the completion-percentage aggregate.  `now` stands for `NOW()`.
Returns the response and the store after the call. -/
def completeChapter (s : Store) (studentId chapterId now : Nat) :
    (CompleteError ⊕ (ProgressRow × Completion)) × Store :=
  match findChapter s chapterId with
  | none => (Sum.inl .chapterNotFound, s)
  | some chapter =>
    if isEnrolled s chapter.courseId studentId then
      if 1 < chapter.sequenceOrder &&
          prevCheckFails (previousChapterRows s studentId chapter.courseId
            (chapter.sequenceOrder - 1)) then
        (Sum.inl .previousIncomplete, s)
      else
        if (match progressFor s studentId chapterId with
            | p :: _ => p.completed
            | [] => false) then
          (Sum.inl .alreadyCompleted, s)
        else
          let res := upsertProgress s studentId chapterId chapter.courseId now
          let total := totalChapters res.1 studentId chapter.courseId
          let comp := completedChapters res.1 studentId chapter.courseId
          (Sum.inr (res.2, ⟨total, comp, round2 ((comp : ℚ) / (total : ℚ) * 100)⟩), res.1)
    else (Sum.inl .notEnrolled, s)

/-- The successful row of a `completeChapter` response, when there is one. -/
def successRow : (CompleteError ⊕ (ProgressRow × Completion)) → Option ProgressRow
  | Sum.inr (pr, _) => some pr
  | Sum.inl _ => none

/-- The completion object of a `completeChapter` response, when there is one. -/
def successCompletion : (CompleteError ⊕ (ProgressRow × Completion)) → Option Completion
  | Sum.inr (_, c) => some c
  | Sum.inl _ => none

/-- The HTTP status of an error response of `completeChapter`, when there is
one. -/
def errStatus : (CompleteError ⊕ (ProgressRow × Completion)) → Option Nat
  | Sum.inl e => some e.status
  | Sum.inr _ => none

/-- The `is_unlocked` CASE expression shared by `getCourseProgress` (progress
controller) and the student branch of `getChapters` (chapter controller):
unlocked when `sequence_order = 1`, or when an `EXISTS` over
`progress prev_p JOIN chapters prev_ch` finds a completed record of this
student on the chapter of the same course whose order is one less. -/
def isUnlocked (s : Store) (studentId : Nat) (ch : Chapter) : Bool :=
  ch.sequenceOrder == 1 ||
    s.progress.any (fun p =>
      (s.chapters.any (fun prev =>
        p.chapterId == prev.id && prev.courseId == ch.courseId &&
          prev.sequenceOrder == ch.sequenceOrder - 1)) &&
      p.studentId == studentId && p.completed)

/-- One element of the `json_agg` array built by `getCourseProgress`. -/
structure ChapterEntry where
  chapter_id : Nat
  sequence_order : Int
  completed : Bool
  completed_at : Option Nat
  is_unlocked : Bool
  deriving Repr, DecidableEq

/-- The object `json_build_object(...)` produces for one joined row. -/
def chapterEntry (s : Store) (studentId : Nat) (ch : Chapter)
    (p : Option ProgressRow) : ChapterEntry :=
  { chapter_id := ch.id
    sequence_order := ch.sequenceOrder
    completed := rowCompleted p
    completed_at := p.bind (·.completedAt)
    is_unlocked := isUnlocked s studentId ch }

/-- `ROUND(completed::NUMERIC / NULLIF(total, 0) * 100, 2)`: `NULL` when the
course has no chapters, else the percentage rounded half up to 2 decimals. -/
def sqlPercentage (completed total : Nat) : Option ℚ :=
  if total == 0 then none
  else some (round2 ((completed : ℚ) / (total : ℚ) * 100))

/-- The aggregate row `getCourseProgress` (and `getMyProgress` for one
course) returns. -/
structure CourseProgressView where
  total_chapters : Nat
  completed_chapters : Nat
  completion_percentage : Option ℚ
  chapters : List ChapterEntry
  deriving Repr, DecidableEq

/-- The joined `(chapter, progress)` rows of the `getCourseProgress` query
for one course and student. -/
def courseJoinRows (s : Store) (studentId courseId : Nat) :
    List (Chapter × Option ProgressRow) :=
  (courseChapters s courseId).flatMap
    (fun ch => (leftJoinProgress s studentId ch).map (fun p => (ch, p)))

/-- The joined rows in `ORDER BY ch.sequence_order` (a stable sort, as
`json_agg(... ORDER BY ...)` performs). -/
def sortedJoinRows (s : Store) (studentId courseId : Nat) :
    List (Chapter × Option ProgressRow) :=
  List.insertionSort (fun a b => a.1.sequenceOrder ≤ b.1.sequenceOrder)
    (courseJoinRows s studentId courseId)

/-- The aggregate row of the `getCourseProgress` query.  For a course with
no chapters the SQL `json_agg` emits one all-`NULL` object; that degenerate
row is modelled as the empty entry list (no claim reads it). -/
def courseProgressView (s : Store) (studentId courseId : Nat) :
    CourseProgressView :=
  let rows := sortedJoinRows s studentId courseId
  { total_chapters := rows.length
    completed_chapters := rows.countP (fun r => rowCompleted r.2)
    completion_percentage := sqlPercentage (rows.countP (fun r => rowCompleted r.2)) rows.length
    chapters := rows.map (fun r => chapterEntry s studentId r.1 r.2) }

/-- Result of the progress read endpoints. -/
inductive GetProgressResult (α : Type) where
  /-- 200 -/
  | ok (v : α)
  /-- 403 `You are not enrolled in this course` -/
  | notEnrolled
  /-- 404 `Course not found` -/
  | notFound
  deriving Repr, DecidableEq

/-- `GET /progress/course/:courseId` — `getCourseProgress` of the progress
controller: enrollment check (403), then the aggregate; 404 when the course
row does not exist. -/
def getCourseProgress (s : Store) (studentId courseId : Nat) :
    GetProgressResult CourseProgressView :=
  if isEnrolled s courseId studentId then
    if s.courses.any (fun c => c.id == courseId) then
      .ok (courseProgressView s studentId courseId)
    else .notFound
  else .notEnrolled

/-- `GET /progress/my?courseId=` — the single-course branch of
`getMyProgress`: the same aggregate, driven by an `INNER JOIN
course_assignments`, so a missing course or enrollment yields the 404 row
count of zero (modelled as `none`). -/
def getMyProgress (s : Store) (studentId courseId : Nat) :
    Option CourseProgressView :=
  if isEnrolled s courseId studentId && s.courses.any (fun c => c.id == courseId) then
    some (courseProgressView s studentId courseId)
  else none

/-- Result of `resetProgress`. -/
inductive ResetResult where
  /-- 200 `Progress reset successfully` -/
  | ok
  /-- 403 `You are not enrolled in this course` -/
  | notEnrolled
  deriving Repr, DecidableEq

/-- `DELETE /progress/course/:courseId/reset` — `resetProgress` of the
progress controller: enrollment check (403), then
`DELETE FROM progress WHERE student_id = $1 AND course_id = $2`. -/
def resetProgress (s : Store) (studentId courseId : Nat) : ResetResult × Store :=
  if isEnrolled s courseId studentId then
    (.ok, { s with progress :=
        s.progress.filter (fun p => !(p.studentId == studentId && p.courseId == courseId)) })
  else (.notEnrolled, s)

/-- `SELECT ch.id, ch.sequence_order FROM chapters ch JOIN courses c ON
ch.course_id = c.id WHERE ch.id = $1 AND ch.course_id = $2 AND
c.mentor_id = $3`, taking the first row (the ownership check of
`deleteChapter`). -/
def chapterOwnedCheck (s : Store) (chapterId courseId mentorId : Nat) :
    Option Chapter :=
  (s.chapters.filter (fun ch =>
    ch.id == chapterId && ch.courseId == courseId &&
      s.courses.any (fun c => c.id == ch.courseId && c.mentorId == mentorId))).head?

/-- First statement of `deleteChapter`:
`DELETE FROM chapters WHERE id = $1` (issued on its own pooled connection). -/
def deleteChapterStep (s : Store) (chapterId : Nat) : Store :=
  { s with chapters := s.chapters.filter (fun ch => !(ch.id == chapterId)) }

/-- The per-row effect of the reindex `UPDATE`. -/
def reindexChapter (courseId : Nat) (deletedSeq : Int) (ch : Chapter) : Chapter :=
  if ch.courseId == courseId && deletedSeq < ch.sequenceOrder then
    { ch with sequenceOrder := ch.sequenceOrder - 1 }
  else ch

/-- Second statement of `deleteChapter`:
`UPDATE chapters SET sequence_order = sequence_order - 1 WHERE
course_id = $1 AND sequence_order > $2` (issued as a separate query). -/
def reindexStep (s : Store) (courseId : Nat) (deletedSeq : Int) : Store :=
  { s with chapters := s.chapters.map (reindexChapter courseId deletedSeq) }

/-- Result of `deleteChapter`. -/
inductive DeleteResult where
  /-- 200 `Chapter deleted successfully` -/
  | ok
  /-- 404 `Chapter not found or unauthorized` -/
  | notFoundOrUnauthorized
  deriving Repr, DecidableEq

/-- `DELETE /courses/:id/chapters/:chapterId` — `deleteChapter` of the
chapter controller: ownership check, then the delete statement followed by
the reindex statement (two separate queries, no transaction). -/
def deleteChapter (s : Store) (courseId chapterId mentorId : Nat) :
    DeleteResult × Store :=
  match chapterOwnedCheck s chapterId courseId mentorId with
  | none => (.notFoundOrUnauthorized, s)
  | some ch =>
    (.ok, reindexStep (deleteChapterStep s chapterId) courseId ch.sequenceOrder)

/-- The sequence orders held by the chapters of one course. -/
def courseOrders (s : Store) (courseId : Nat) : List Int :=
  (courseChapters s courseId).map (·.sequenceOrder)

/-- The dense order list `[1, 2, ..., n]`. -/
def denseOrders (n : Nat) : List Int :=
  (List.range n).map (fun i : Nat => (i : Int) + 1)

/-- The eligibility result of `checkCertificateEligibility`
(certificate service). -/
structure Eligibility where
  eligible : Bool
  message : Option String
  percentage : Option ℚ
  deriving Repr, DecidableEq

/-- `checkCertificateEligibility` of the certificate service: enrollment
check, then the completion aggregate; a course with zero chapters is
rejected before the percentage is computed. -/
def checkCertificateEligibility (s : Store) (studentId courseId : Nat) :
    Eligibility :=
  if isEnrolled s courseId studentId then
    let total := totalChapters s studentId courseId
    let comp := completedChapters s studentId courseId
    if total == 0 then
      { eligible := false, message := some "Course has no chapters", percentage := none }
    else
      let pct : ℚ := (comp : ℚ) / (total : ℚ) * 100
      if pct < 100 then
        { eligible := false, message := some "Course not fully completed"
          percentage := some (round2 pct) }
      else { eligible := true, message := none, percentage := some 100 }
  else
    { eligible := false, message := some "Not enrolled in this course", percentage := none }

/-- Result of `getCertificate`. -/
inductive CertResult where
  /-- 403 `Certificate not available` -/
  | notAvailable (e : Eligibility)
  /-- 200: the certificate record whose PDF is rendered and sent -/
  | issued (c : Certificate)
  deriving Repr, DecidableEq

/-- The certificate of a `getCertificate` response, when there is one. -/
def certOf : CertResult → Option Certificate
  | .issued c => some c
  | .notAvailable _ => none

/-- `GET /certificates/:courseId` — `getCertificate` of the certificate
controller (the `issueOrFetch` operation): eligibility check (403), then
`SELECT * FROM certificates WHERE student_id = $1 AND course_id = $2`;
when no row exists, `INSERT INTO certificates (student_id, course_id)
VALUES ($1, $2) RETURNING *`. -/
def getCertificate (s : Store) (studentId courseId : Nat) : CertResult × Store :=
  let elig := checkCertificateEligibility s studentId courseId
  if elig.eligible then
    match s.certificates.filter
        (fun c => c.studentId == studentId && c.courseId == courseId) with
    | c :: _ => (.issued c, s)
    | [] =>
      let c : Certificate := ⟨s.nextCertId, studentId, courseId⟩
      (.issued c, { s with certificates := s.certificates ++ [c]
                           nextCertId := s.nextCertId + 1 })
  else (.notAvailable elig, s)

/-! Concrete stores used to instantiate the theorems.  Student 10 is
enrolled in course 1, which is owned by mentor 7. -/

/-- Course 1 with chapters A(1), B(2), C(3) and no progress yet. -/
def demoStore : Store :=
  { courses := [⟨1, 7⟩]
    chapters := [⟨1, 1, 1⟩, ⟨2, 1, 2⟩, ⟨3, 1, 3⟩]
    enrollments := [⟨1, 10⟩]
    progress := []
    certificates := []
    nextCertId := 100 }

/-- Course 1 with chapters A(1), B(2) where student 10 completed chapter A. -/
def resetDemoStore : Store :=
  { courses := [⟨1, 7⟩]
    chapters := [⟨1, 1, 1⟩, ⟨2, 1, 2⟩]
    enrollments := [⟨1, 10⟩]
    progress := [⟨10, 1, 1, true, some 5⟩]
    certificates := []
    nextCertId := 100 }

/-- Course 5 with zero chapters; student 10 is enrolled. -/
def emptyCourseStore : Store :=
  { courses := [⟨5, 7⟩]
    chapters := []
    enrollments := [⟨5, 10⟩]
    progress := []
    certificates := []
    nextCertId := 100 }

/-- Course 1 with a single chapter that student 10 has completed. -/
def doneStore : Store :=
  { courses := [⟨1, 7⟩]
    chapters := [⟨1, 1, 1⟩]
    enrollments := [⟨1, 10⟩]
    progress := [⟨10, 1, 1, true, some 5⟩]
    certificates := []
    nextCertId := 100 }

/-- Course 1 with four chapters holding the dense orders 1..4. -/
def fourChapterStore : Store :=
  { courses := [⟨1, 7⟩]
    chapters := [⟨1, 1, 1⟩, ⟨2, 1, 2⟩, ⟨3, 1, 3⟩, ⟨4, 1, 4⟩]
    enrollments := [⟨1, 10⟩]
    progress := []
    certificates := []
    nextCertId := 100 }

/-- The aggregate view of `demoStore` for student 10, course 1. -/
def demoView : CourseProgressView := courseProgressView demoStore 10 1

/-- The progress row returned by completing chapter 1 of `demoStore`. -/
def demoPrA : ProgressRow := ⟨10, 1, 1, true, some 0⟩

/-- The completion object returned by completing chapter 1 of `demoStore`:
1 of 3 chapters done. -/
def demoCompA : Completion :=
  ⟨3, 1, round2 (((1 : ℕ) : ℚ) / ((3 : ℕ) : ℚ) * 100)⟩

/-- The store after student 10 completes chapter 1 of `demoStore`. -/
def demoStoreA : Store := (completeChapter demoStore 10 1 0).2

/-- The store after student 10 then completes chapter 2. -/
def demoStoreAB : Store := (completeChapter demoStoreA 10 2 1).2

/-- The completion object returned by the final completion of chapter 3:
3 of 3 chapters done. -/
def demoCompC : Completion :=
  ⟨3, 3, round2 (((3 : ℕ) : ℚ) / ((3 : ℕ) : ℚ) * 100)⟩

/-! ## Helper lemmas -/

theorem head?_filter_spec {α : Type} (l : List α) (f : α → Bool) (a : α)
    (h : (l.filter f).head? = some a) : a ∈ l ∧ f a = true := by
  cases hf : l.filter f with
  | nil => rw [hf] at h; cases h
  | cons x xs =>
    rw [hf] at h
    have hx : x = a := by simpa using h
    subst hx
    exact List.mem_filter.mp (hf ▸ List.mem_cons_self x xs)

theorem findChapter_spec (s : Store) (i : Nat) (ch : Chapter)
    (h : findChapter s i = some ch) : ch ∈ s.chapters ∧ ch.id = i := by
  obtain ⟨hm, hf⟩ := head?_filter_spec _ _ _ h
  exact ⟨hm, by simpa [beq_iff_eq] using hf⟩

theorem countP_le_one_of_unique {α : Type} (l : List α) (f : α → Bool)
    (hnd : l.Nodup)
    (h : ∀ a ∈ l, ∀ b ∈ l, f a = true → f b = true → a = b) :
    l.countP f ≤ 1 := by
  induction l with
  | nil => simp
  | cons a t ih =>
    rw [List.nodup_cons] at hnd
    rw [List.countP_cons]
    by_cases hfa : f a = true
    · have ht : t.countP f = 0 := by
        refine List.countP_eq_zero.mpr (fun b hb hfb => ?_)
        have : b = a :=
          h b (List.mem_cons_of_mem _ hb) a (List.mem_cons_self _ _) hfb hfa
        exact hnd.1 (this ▸ hb)
      simp [ht, hfa]
    · have ht := ih hnd.2
        (fun x hx y hy hfx hfy =>
          h x (List.mem_cons_of_mem _ hx) y (List.mem_cons_of_mem _ hy) hfx hfy)
      simp only [Bool.eq_false_iff] at hfa
      simp [hfa]
      omega

theorem filter_eq_singleton_of {α : Type} (l : List α) (f : α → Bool) (a : α)
    (ha : a ∈ l) (hfa : f a = true) (hc : l.countP f ≤ 1) :
    l.filter f = [a] := by
  have hmem : a ∈ l.filter f := List.mem_filter.mpr ⟨ha, hfa⟩
  have hlen : (l.filter f).length ≤ 1 := by
    rw [← List.countP_eq_length_filter]; exact hc
  cases hf : l.filter f with
  | nil => rw [hf] at hmem; cases hmem
  | cons x xs =>
    rw [hf] at hmem hlen
    simp at hlen
    have hxs : xs = [] := List.eq_nil_of_length_eq_zero (by simpa using hlen)
    subst hxs
    rw [List.mem_singleton.mp hmem]

/-- The `is_unlocked` CASE expression, characterised: unlocked exactly when
the order is 1 or a completed progress record of the student exists on the
same course's chapter of order one less. -/
theorem isUnlocked_iff (s : Store) (studentId : Nat) (ch : Chapter) :
    isUnlocked s studentId ch = true ↔
      (ch.sequenceOrder = 1 ∨
        ∃ prev ∈ s.chapters, prev.courseId = ch.courseId ∧
          prev.sequenceOrder + 1 = ch.sequenceOrder ∧
          ∃ p ∈ s.progress, p.studentId = studentId ∧ p.chapterId = prev.id ∧
            p.completed = true) := by
  have key : ∀ a b : Int, (a = b - 1) ↔ (a + 1 = b) := by omega
  unfold isUnlocked
  simp only [Bool.or_eq_true, List.any_eq_true, Bool.and_eq_true, beq_iff_eq, key]
  tauto

theorem mem_courseJoinRows (s : Store) (studentId courseId : Nat)
    (r : Chapter × Option ProgressRow)
    (h : r ∈ courseJoinRows s studentId courseId) :
    r.1 ∈ s.chapters ∧ r.1.courseId = courseId ∧
      r.2 ∈ leftJoinProgress s studentId r.1 := by
  unfold courseJoinRows at h
  rw [List.mem_flatMap] at h
  obtain ⟨ch, hch, hr⟩ := h
  rw [List.mem_map] at hr
  obtain ⟨p, hp, rfl⟩ := hr
  have := List.mem_filter.mp hch
  exact ⟨this.1, by simpa [beq_iff_eq] using this.2, hp⟩

theorem mem_sortedJoinRows (s : Store) (studentId courseId : Nat)
    (r : Chapter × Option ProgressRow)
    (h : r ∈ sortedJoinRows s studentId courseId) :
    r ∈ courseJoinRows s studentId courseId :=
  (List.perm_insertionSort _ _).mem_iff.mp h

theorem getCourseProgress_ok (s : Store) (studentId courseId : Nat)
    (v : CourseProgressView)
    (h : getCourseProgress s studentId courseId = GetProgressResult.ok v) :
    v = courseProgressView s studentId courseId := by
  unfold getCourseProgress at h
  by_cases h1 : isEnrolled s courseId studentId
  · by_cases h2 : s.courses.any (fun c => c.id == courseId)
    · simp [h1, h2] at h; exact h.symm
    · simp [h1, h2] at h
  · simp [h1] at h

/-! ## Claim theorems -/

/-- C1: every per-chapter entry returned by `getCourseProgress` comes from a
chapter of the requested course and carries `is_unlocked = true` exactly when
the chapter's sequence order is 1 or a completed progress record of the
student exists on the same course's chapter whose sequence order is one
less; otherwise it is locked. -/
theorem c1_unlock_state (s : Store) (studentId courseId : Nat)
    (v : CourseProgressView)
    (hok : getCourseProgress s studentId courseId = GetProgressResult.ok v)
    (e : ChapterEntry) (he : e ∈ v.chapters) :
    ∃ ch ∈ s.chapters, ch.courseId = courseId ∧ e.chapter_id = ch.id ∧
      e.sequence_order = ch.sequenceOrder ∧
      (e.is_unlocked = true ↔
        (ch.sequenceOrder = 1 ∨
          ∃ prev ∈ s.chapters, prev.courseId = ch.courseId ∧
            prev.sequenceOrder + 1 = ch.sequenceOrder ∧
            ∃ p ∈ s.progress, p.studentId = studentId ∧ p.chapterId = prev.id ∧
              p.completed = true)) := by
  rw [getCourseProgress_ok s studentId courseId v hok] at he
  simp only [courseProgressView, List.mem_map] at he
  obtain ⟨r, hr, rfl⟩ := he
  have hmem := mem_courseJoinRows s studentId courseId r
    (mem_sortedJoinRows s studentId courseId r hr)
  refine ⟨r.1, hmem.1, hmem.2.1, rfl, rfl, ?_⟩
  exact isUnlocked_iff s studentId r.1

/-- C1 witness: in `demoStore` (no progress yet) the entry of chapter 2 is
locked and the characterisation applies to it. -/
theorem c1_unlock_state_witness :
    ∃ ch ∈ demoStore.chapters, ch.courseId = 1 ∧
      (⟨2, 2, false, none, false⟩ : ChapterEntry).chapter_id = ch.id ∧
      (⟨2, 2, false, none, false⟩ : ChapterEntry).sequence_order = ch.sequenceOrder ∧
      ((⟨2, 2, false, none, false⟩ : ChapterEntry).is_unlocked = true ↔
        (ch.sequenceOrder = 1 ∨
          ∃ prev ∈ demoStore.chapters, prev.courseId = ch.courseId ∧
            prev.sequenceOrder + 1 = ch.sequenceOrder ∧
            ∃ p ∈ demoStore.progress, p.studentId = 10 ∧ p.chapterId = prev.id ∧
              p.completed = true)) :=
  c1_unlock_state demoStore 10 1 demoView rfl ⟨2, 2, false, none, false⟩ (by decide)

theorem mem_leftJoinProgress_some (s : Store) (studentId : Nat) (ch : Chapter)
    (p : ProgressRow) (h : some p ∈ leftJoinProgress s studentId ch) :
    p ∈ s.progress ∧ p.studentId = studentId ∧ p.chapterId = ch.id := by
  unfold leftJoinProgress at h
  cases hps : progressFor s studentId ch.id with
  | nil => rw [hps] at h; simp at h
  | cons q qs =>
    rw [hps] at h
    rw [List.mem_map] at h
    obtain ⟨q', hq', he⟩ := h
    have hq : q' = p := by injection he
    subst hq
    have : q' ∈ progressFor s studentId ch.id := hps ▸ hq'
    have := List.mem_filter.mp this
    refine ⟨this.1, ?_, ?_⟩ <;> · have := this.2; simp [Bool.and_eq_true] at this; tauto

/-- When no completed progress record of the student exists on any chapter
of the course ordered one below the given chapter, the sequential-access
guard rejects. -/
theorem prevCheckFails_of_no_completed (s : Store) (studentId : Nat)
    (ch : Chapter)
    (hpred : ¬ ∃ prev ∈ s.chapters, prev.courseId = ch.courseId ∧
        prev.sequenceOrder + 1 = ch.sequenceOrder ∧
        ∃ p ∈ s.progress, p.studentId = studentId ∧ p.chapterId = prev.id ∧
          p.completed = true) :
    prevCheckFails (previousChapterRows s studentId ch.courseId
      (ch.sequenceOrder - 1)) = true := by
  cases hrows : previousChapterRows s studentId ch.courseId
      (ch.sequenceOrder - 1) with
  | nil => rfl
  | cons r rest =>
    unfold prevCheckFails
    cases r with
    | none => rfl
    | some p =>
      simp only [rowCompleted, Bool.not_eq_true']
      by_contra hcomp
      rw [Bool.not_eq_false] at hcomp
      have hr : (some p) ∈ previousChapterRows s studentId ch.courseId
          (ch.sequenceOrder - 1) := hrows ▸ List.mem_cons_self _ _
      unfold previousChapterRows at hr
      rw [List.mem_flatMap] at hr
      obtain ⟨prev, hprev, hin⟩ := hr
      have hpf := List.mem_filter.mp hprev
      have hcond := hpf.2
      simp only [Bool.and_eq_true, beq_iff_eq] at hcond
      obtain ⟨hpm, hps, hpc⟩ := mem_leftJoinProgress_some s studentId prev p hin
      exact hpred ⟨prev, hpf.1, hcond.1, by omega, p, hpm, hps, hpc, hcomp⟩

/-- C2: completing a chapter of order above 1 whose predecessor has no
completed progress record for the student fails with a 403 response and
leaves the store untouched; when the student is enrolled the response is
the distinguishing previous-chapter message. -/
theorem c2_locked_forbidden (s : Store) (studentId chapterId now : Nat)
    (ch : Chapter) (hch : findChapter s chapterId = some ch)
    (hord : 1 < ch.sequenceOrder)
    (hpred : ¬ ∃ prev ∈ s.chapters, prev.courseId = ch.courseId ∧
        prev.sequenceOrder + 1 = ch.sequenceOrder ∧
        ∃ p ∈ s.progress, p.studentId = studentId ∧ p.chapterId = prev.id ∧
          p.completed = true) :
    (completeChapter s studentId chapterId now).2 = s ∧
    errStatus (completeChapter s studentId chapterId now).1 = some 403 ∧
    (isEnrolled s ch.courseId studentId = true →
      completeChapter s studentId chapterId now =
        (Sum.inl CompleteError.previousIncomplete, s)) := by
  have hfail := prevCheckFails_of_no_completed s studentId ch hpred
  unfold completeChapter
  rw [hch]
  by_cases henr : isEnrolled s ch.courseId studentId = true
  · simp [henr, hfail, hord, errStatus, CompleteError.status]
  · rw [Bool.not_eq_true] at henr
    simp [henr, errStatus, CompleteError.status]

/-- C2 witness: in `demoStore` student 10 cannot complete chapter 3 while
chapter 2 is incomplete. -/
theorem c2_locked_forbidden_witness :
    (completeChapter demoStore 10 3 0).2 = demoStore ∧
    errStatus (completeChapter demoStore 10 3 0).1 = some 403 ∧
    (isEnrolled demoStore 1 10 = true →
      completeChapter demoStore 10 3 0 =
        (Sum.inl CompleteError.previousIncomplete, demoStore)) :=
  c2_locked_forbidden demoStore 10 3 0 ⟨3, 1, 3⟩ (by decide) (by decide) (by decide)

/-- C9: completing a chapter id that matches no chapter row answers the 404
not-found response (not an internal error) and leaves the store unchanged. -/
theorem c9_not_found (s : Store) (studentId chapterId now : Nat)
    (h : findChapter s chapterId = none) :
    completeChapter s studentId chapterId now =
      (Sum.inl CompleteError.chapterNotFound, s) ∧
    CompleteError.chapterNotFound.status = 404 := by
  unfold completeChapter
  rw [h]
  exact ⟨rfl, rfl⟩

/-- C9 witness: chapter id 99 does not exist in `demoStore`. -/
theorem c9_not_found_witness :
    completeChapter demoStore 10 99 0 =
      (Sum.inl CompleteError.chapterNotFound, demoStore) ∧
    CompleteError.chapterNotFound.status = 404 :=
  c9_not_found demoStore 10 99 0 (by decide)

theorem leftJoinProgress_ne_nil (s : Store) (studentId : Nat) (ch : Chapter) :
    leftJoinProgress s studentId ch ≠ [] := by
  unfold leftJoinProgress
  cases hps : progressFor s studentId ch.id <;> simp

theorem upsertProgress_chapters (s : Store) (a b c n : Nat) :
    ((upsertProgress s a b c n).1).chapters = s.chapters := by
  unfold upsertProgress
  split <;> rfl

theorem upsertProgress_enrollments (s : Store) (a b c n : Nat) :
    ((upsertProgress s a b c n).1).enrollments = s.enrollments := by
  unfold upsertProgress
  split <;> rfl

theorem totalChapters_pos (s : Store) (studentId courseId : Nat)
    (ch : Chapter) (hm : ch ∈ s.chapters) (hc : ch.courseId = courseId) :
    0 < totalChapters s studentId courseId := by
  unfold totalChapters completionRows
  rw [List.length_pos]
  intro hnil
  have hmem : ch ∈ courseChapters s courseId :=
    List.mem_filter.mpr ⟨hm, by simp [hc]⟩
  rw [List.flatMap_eq_nil_iff] at hnil
  exact leftJoinProgress_ne_nil s studentId ch (hnil _ hmem)

/-- C5: a successful `completeChapter` reports the percentage as
`completed_chapters / total_chapters * 100` rounded half up to two decimal
places, with a positive chapter total. -/
theorem c5_percentage (s : Store) (studentId chapterId now : Nat)
    (pr : ProgressRow) (comp : Completion) (s' : Store)
    (h : completeChapter s studentId chapterId now = (Sum.inr (pr, comp), s')) :
    comp.percentage =
      round2 ((comp.completed_chapters : ℚ) / (comp.total_chapters : ℚ) * 100) ∧
    0 < comp.total_chapters := by
  unfold completeChapter at h
  cases hfc : findChapter s chapterId with
  | none => rw [hfc] at h; simp at h
  | some chapter =>
    rw [hfc] at h
    by_cases henr : isEnrolled s chapter.courseId studentId = true
    · simp only [henr, if_true] at h
      by_cases hc1 : (1 < chapter.sequenceOrder &&
          prevCheckFails (previousChapterRows s studentId chapter.courseId
            (chapter.sequenceOrder - 1))) = true
      · rw [if_pos hc1] at h; simp at h
      · rw [if_neg hc1] at h
        by_cases hc2 : (match progressFor s studentId chapterId with
            | p :: _ => p.completed
            | [] => false) = true
        · rw [if_pos hc2] at h; simp at h
        · rw [if_neg hc2] at h
          simp only [Prod.mk.injEq, Sum.inr.injEq] at h
          obtain ⟨⟨hpr, hcomp⟩, hs⟩ := h
          subst hcomp
          refine ⟨rfl, ?_⟩
          obtain ⟨hm, _⟩ := findChapter_spec s chapterId chapter hfc
          exact totalChapters_pos _ studentId chapter.courseId chapter
            (by rw [upsertProgress_chapters]; exact hm) rfl
    · rw [Bool.not_eq_true] at henr
      simp [henr] at h

/-- C5 witness: in the three-chapter `demoStore`, completing chapter A
returns percentage 33.33, and after completing A, B and C the final
completion reports 100. -/
theorem c5_percentage_witness :
    completeChapter demoStore 10 1 0 = (Sum.inr (demoPrA, demoCompA), demoStoreA) ∧
    (demoCompA.percentage =
        round2 ((demoCompA.completed_chapters : ℚ) /
          (demoCompA.total_chapters : ℚ) * 100) ∧
      0 < demoCompA.total_chapters) ∧
    demoCompA.percentage = 3333 / 100 ∧
    successCompletion (completeChapter demoStoreAB 10 3 2).1 = some demoCompC ∧
    demoCompC.percentage = 100 :=
  ⟨rfl,
   c5_percentage demoStore 10 1 0 demoPrA demoCompA demoStoreA rfl,
   by norm_num [demoCompA, round2],
   rfl,
   by norm_num [demoCompC, round2]⟩

/-! ### Reduction lemmas for the branches of `completeChapter` -/

theorem completeChapter_success_eq (s : Store) (studentId chapterId now : Nat)
    (ch : Chapter) (hch : findChapter s chapterId = some ch)
    (henr : isEnrolled s ch.courseId studentId = true)
    (hc1 : (decide (1 < ch.sequenceOrder) &&
        prevCheckFails (previousChapterRows s studentId ch.courseId
          (ch.sequenceOrder - 1))) = false)
    (hc2 : (match progressFor s studentId chapterId with
        | p :: _ => p.completed
        | [] => false) = false) :
    completeChapter s studentId chapterId now =
      (Sum.inr ((upsertProgress s studentId chapterId ch.courseId now).2,
        ⟨totalChapters (upsertProgress s studentId chapterId ch.courseId now).1
            studentId ch.courseId,
         completedChapters (upsertProgress s studentId chapterId ch.courseId now).1
            studentId ch.courseId,
         round2 (((completedChapters
              (upsertProgress s studentId chapterId ch.courseId now).1
              studentId ch.courseId : ℕ) : ℚ) /
            ((totalChapters (upsertProgress s studentId chapterId ch.courseId now).1
              studentId ch.courseId : ℕ) : ℚ) * 100)⟩),
       (upsertProgress s studentId chapterId ch.courseId now).1) := by
  unfold completeChapter
  rw [hch]
  simp only [henr, if_true, hc1, hc2, Bool.false_eq_true, if_false]

theorem completeChapter_already_eq (s : Store) (studentId chapterId now : Nat)
    (ch : Chapter) (hch : findChapter s chapterId = some ch)
    (henr : isEnrolled s ch.courseId studentId = true)
    (hc1 : (decide (1 < ch.sequenceOrder) &&
        prevCheckFails (previousChapterRows s studentId ch.courseId
          (ch.sequenceOrder - 1))) = false)
    (hc2 : (match progressFor s studentId chapterId with
        | p :: _ => p.completed
        | [] => false) = true) :
    completeChapter s studentId chapterId now =
      (Sum.inl CompleteError.alreadyCompleted, s) := by
  unfold completeChapter
  rw [hch]
  simp only [henr, if_true, hc1, hc2, Bool.false_eq_true, if_false]

/-! ### Properties of the progress upsert -/

theorem upsertProgress_row (s : Store) (a b c n : Nat) :
    (upsertProgress s a b c n).2.studentId = a ∧
    (upsertProgress s a b c n).2.chapterId = b ∧
    (upsertProgress s a b c n).2.completed = true ∧
    (upsertProgress s a b c n).2.completedAt = some n := by
  unfold upsertProgress
  by_cases hany : s.progress.any
      (fun p => p.studentId == a && p.chapterId == b) = true
  · simp only [hany, if_true]
    cases hf : (s.progress.map (fun p =>
        if p.studentId == a && p.chapterId == b then
          { p with completed := true, completedAt := some n }
        else p)).filter (fun p => p.studentId == a && p.chapterId == b) with
    | nil => exact ⟨rfl, rfl, rfl, rfl⟩
    | cons r rest =>
      have hr : r ∈ (s.progress.map (fun p =>
          if p.studentId == a && p.chapterId == b then
            { p with completed := true, completedAt := some n }
          else p)).filter (fun p => p.studentId == a && p.chapterId == b) :=
        hf ▸ List.mem_cons_self _ _
      obtain ⟨hrm, hrk⟩ := List.mem_filter.mp hr
      rw [List.mem_map] at hrm
      obtain ⟨x, hx, rfl⟩ := hrm
      by_cases hkx : (x.studentId == a && x.chapterId == b) = true
      · rw [if_pos hkx] at hrk ⊢
        simp only [Bool.and_eq_true, beq_iff_eq] at hrk
        exact ⟨hrk.1, hrk.2, rfl, rfl⟩
      · rw [if_neg hkx] at hrk
        exact absurd hrk hkx
  · simp [hany]

theorem upsertProgress_filter_key (s : Store) (a b c n : Nat) :
    ((upsertProgress s a b c n).1.progress.filter
        (fun p => p.studentId == a && p.chapterId == b)) ≠ [] ∧
    (∀ q ∈ (upsertProgress s a b c n).1.progress.filter
        (fun p => p.studentId == a && p.chapterId == b), q.completed = true) := by
  unfold upsertProgress
  by_cases hany : s.progress.any
      (fun p => p.studentId == a && p.chapterId == b) = true
  · simp only [hany, if_true]
    constructor
    · rw [List.any_eq_true] at hany
      obtain ⟨x, hx, hkx⟩ := hany
      intro hnil
      have hgx : ({ x with completed := true, completedAt := some n } :
          ProgressRow) ∈ (s.progress.map (fun p =>
            if p.studentId == a && p.chapterId == b then
              { p with completed := true, completedAt := some n }
            else p)).filter (fun p => p.studentId == a && p.chapterId == b) := by
        refine List.mem_filter.mpr ⟨?_, by simpa using hkx⟩
        rw [List.mem_map]
        exact ⟨x, hx, by rw [if_pos hkx]⟩
      rw [hnil] at hgx
      cases hgx
    · intro q hq
      obtain ⟨hqm, hqk⟩ := List.mem_filter.mp hq
      rw [List.mem_map] at hqm
      obtain ⟨x, hx, rfl⟩ := hqm
      by_cases hkx : (x.studentId == a && x.chapterId == b) = true
      · rw [if_pos hkx]
      · rw [if_neg hkx] at hqk
        exact absurd hqk hkx
  · rw [Bool.not_eq_true] at hany
    simp only [hany, Bool.false_eq_true, if_false]
    rw [List.filter_append]
    have hl : s.progress.filter (fun p => p.studentId == a && p.chapterId == b)
        = [] := List.filter_eq_nil_iff.mpr (List.any_eq_false.mp hany)
    rw [hl]
    simp

theorem upsertProgress_progressFor_frame (s : Store) (a b c n x y : Nat)
    (hxy : ¬(x = a ∧ y = b)) :
    progressFor (upsertProgress s a b c n).1 x y = progressFor s x y := by
  unfold progressFor upsertProgress
  have hkey : ∀ p : ProgressRow,
      (((if p.studentId == a && p.chapterId == b then
          { p with completed := true, completedAt := some n }
        else p) : ProgressRow).studentId == x &&
       ((if p.studentId == a && p.chapterId == b then
          { p with completed := true, completedAt := some n }
        else p) : ProgressRow).chapterId == y) =
      (p.studentId == x && p.chapterId == y) := by
    intro p
    by_cases hk : (p.studentId == a && p.chapterId == b) = true
    · rw [if_pos hk]
    · rw [if_neg hk]
  by_cases hany : s.progress.any
      (fun p => p.studentId == a && p.chapterId == b) = true
  · simp only [hany, if_true]
    rw [List.filter_map]
    have : ((fun p : ProgressRow => p.studentId == x && p.chapterId == y) ∘
        (fun p : ProgressRow =>
          if p.studentId == a && p.chapterId == b then
            { p with completed := true, completedAt := some n }
          else p)) =
        (fun p : ProgressRow => p.studentId == x && p.chapterId == y) := by
      funext p
      exact hkey p
    rw [this]
    refine List.map_congr_left ?_ |>.trans (List.map_id _)
    intro q hq
    obtain ⟨hqm, hqk⟩ := List.mem_filter.mp hq
    have hnk : (q.studentId == a && q.chapterId == b) = false := by
      rw [← Bool.not_eq_true]
      intro hk
      simp only [Bool.and_eq_true, beq_iff_eq] at hk hqk
      exact hxy ⟨hqk.1 ▸ hk.1.symm ▸ rfl, hqk.2 ▸ hk.2.symm ▸ rfl⟩
    simp [hnk]
  · simp only [hany, Bool.false_eq_true, if_false]
    rw [List.filter_append]
    have hone : ([(⟨a, b, c, true, some n⟩ : ProgressRow)].filter
        (fun p => p.studentId == x && p.chapterId == y)) = [] := by
      rw [List.filter_eq_nil_iff]
      intro q hq
      rw [List.mem_singleton] at hq
      subst hq
      simp only [Bool.and_eq_true, beq_iff_eq]
      rintro ⟨h1, h2⟩
      exact hxy ⟨h1.symm, h2.symm⟩
    rw [hone, List.append_nil]

theorem upsertProgress_countP_key (s : Store) (a b c n : Nat)
    (hpnd : s.progress.Nodup)
    (hpkey : ∀ p ∈ s.progress, ∀ q ∈ s.progress, p.studentId = q.studentId →
        p.chapterId = q.chapterId → p = q) :
    (upsertProgress s a b c n).1.progress.countP
        (fun p => p.studentId == a && p.chapterId == b) ≤ 1 := by
  have hbound := countP_le_one_of_unique s.progress
      (fun p => p.studentId == a && p.chapterId == b) hpnd
      (fun p hp q hq hfp hfq => by
        simp only [Bool.and_eq_true, beq_iff_eq] at hfp hfq
        exact hpkey p hp q hq (hfp.1.trans hfq.1.symm) (hfp.2.trans hfq.2.symm))
  unfold upsertProgress
  by_cases hany : s.progress.any
      (fun p => p.studentId == a && p.chapterId == b) = true
  · simp only [hany, if_true]
    rw [List.countP_map]
    refine le_trans (le_of_eq (List.countP_congr ?_)) hbound
    intro p hp
    by_cases hk : (p.studentId == a && p.chapterId == b) = true
    · simp only [Function.comp_apply, if_pos hk]
    · simp only [Function.comp_apply, if_neg hk]
  · rw [Bool.not_eq_true] at hany
    simp only [hany, Bool.false_eq_true, if_false]
    rw [List.countP_append]
    have h0 : s.progress.countP
        (fun p => p.studentId == a && p.chapterId == b) = 0 :=
      List.countP_eq_zero.mpr (List.any_eq_false.mp hany)
    rw [h0]
    simp [List.countP_cons]

/-! ### Uniqueness-based singleton lemmas and frame congruences -/

theorem progressFor_eq_singleton (s : Store) (studentId chapterId : Nat)
    (p : ProgressRow) (hp : p ∈ s.progress) (hps : p.studentId = studentId)
    (hpc : p.chapterId = chapterId) (hpnd : s.progress.Nodup)
    (hpkey : ∀ a ∈ s.progress, ∀ b ∈ s.progress, a.studentId = b.studentId →
        a.chapterId = b.chapterId → a = b) :
    progressFor s studentId chapterId = [p] := by
  unfold progressFor
  refine filter_eq_singleton_of _ _ _ hp (by simp [hps, hpc]) ?_
  refine countP_le_one_of_unique _ _ hpnd (fun a ha b hb hfa hfb => ?_)
  simp only [Bool.and_eq_true, beq_iff_eq] at hfa hfb
  exact hpkey a ha b hb (hfa.1.trans hfb.1.symm) (hfa.2.trans hfb.2.symm)

theorem prevChapters_eq_singleton (s : Store) (ch prev : Chapter)
    (hprev : prev ∈ s.chapters) (hpc : prev.courseId = ch.courseId)
    (hpo : prev.sequenceOrder = ch.sequenceOrder - 1) (hnd : s.chapters.Nodup)
    (hsequ : ∀ a ∈ s.chapters, ∀ b ∈ s.chapters, a.courseId = b.courseId →
        a.sequenceOrder = b.sequenceOrder → a = b) :
    s.chapters.filter (fun c => c.courseId == ch.courseId &&
      c.sequenceOrder == ch.sequenceOrder - 1) = [prev] := by
  refine filter_eq_singleton_of _ _ _ hprev (by simp [hpc, hpo]) ?_
  refine countP_le_one_of_unique _ _ hnd (fun a ha b hb hfa hfb => ?_)
  simp only [Bool.and_eq_true, beq_iff_eq] at hfa hfb
  exact hsequ a ha b hb (hfa.1.trans hfb.1.symm) (hfa.2.trans hfb.2.symm)

theorem findChapter_congr (s t : Store) (h : t.chapters = s.chapters) (i : Nat) :
    findChapter t i = findChapter s i := by
  unfold findChapter; rw [h]

theorem isEnrolled_congr (s t : Store) (h : t.enrollments = s.enrollments)
    (c st : Nat) : isEnrolled t c st = isEnrolled s c st := by
  unfold isEnrolled; rw [h]

theorem leftJoinProgress_congr (s t : Store) (studentId : Nat) (ch : Chapter)
    (h : progressFor t studentId ch.id = progressFor s studentId ch.id) :
    leftJoinProgress t studentId ch = leftJoinProgress s studentId ch := by
  unfold leftJoinProgress; rw [h]

/-- When the single predecessor chapter carries a single completed progress
row of the student, the sequential-access guard passes. -/
theorem prevCheckFails_eq_false_of (s : Store) (studentId : Nat)
    (ch prev : Chapter) (p : ProgressRow)
    (hfil : s.chapters.filter (fun c => c.courseId == ch.courseId &&
        c.sequenceOrder == ch.sequenceOrder - 1) = [prev])
    (hpf : progressFor s studentId prev.id = [p])
    (hpcompl : p.completed = true) :
    prevCheckFails (previousChapterRows s studentId ch.courseId
      (ch.sequenceOrder - 1)) = false := by
  unfold previousChapterRows
  rw [hfil]
  have hjoin : leftJoinProgress s studentId prev = [some p] := by
    unfold leftJoinProgress
    rw [hpf]
    rfl
  simp [hjoin, prevCheckFails, rowCompleted, hpcompl]

/-- C3: completing an unlocked, not-yet-completed chapter succeeds, writing
a completed progress row stamped with the call time; an immediately repeated
call is rejected as `alreadyCompleted` without touching the store, and at
most one progress row keyed by (student, chapter) remains. -/
theorem c3_complete_twice (s : Store) (studentId chapterId now1 now2 : Nat)
    (ch : Chapter) (hch : findChapter s chapterId = some ch)
    (hnd : s.chapters.Nodup)
    (hids : ∀ a ∈ s.chapters, ∀ b ∈ s.chapters, a.id = b.id → a = b)
    (hsequ : ∀ a ∈ s.chapters, ∀ b ∈ s.chapters, a.courseId = b.courseId →
        a.sequenceOrder = b.sequenceOrder → a = b)
    (hpnd : s.progress.Nodup)
    (hpkey : ∀ p ∈ s.progress, ∀ q ∈ s.progress, p.studentId = q.studentId →
        p.chapterId = q.chapterId → p = q)
    (henr : isEnrolled s ch.courseId studentId = true)
    (hunlocked : ch.sequenceOrder = 1 ∨
        ∃ prev ∈ s.chapters, prev.courseId = ch.courseId ∧
          prev.sequenceOrder + 1 = ch.sequenceOrder ∧
          ∃ p ∈ s.progress, p.studentId = studentId ∧ p.chapterId = prev.id ∧
            p.completed = true)
    (hnotdone : ∀ p ∈ s.progress, p.studentId = studentId →
        p.chapterId = chapterId → p.completed = false) :
    ((successRow (completeChapter s studentId chapterId now1).1).map
        (fun pr => (pr.studentId, pr.chapterId, pr.completed, pr.completedAt))
      = some (studentId, chapterId, true, some now1)) ∧
    completeChapter (completeChapter s studentId chapterId now1).2 studentId
        chapterId now2
      = (Sum.inl CompleteError.alreadyCompleted,
         (completeChapter s studentId chapterId now1).2) ∧
    (completeChapter s studentId chapterId now1).2.progress.countP
      (fun p => p.studentId == studentId && p.chapterId == chapterId) ≤ 1 := by
  obtain ⟨hchm, hchid⟩ := findChapter_spec s chapterId ch hch
  have hc2 : (match progressFor s studentId chapterId with
      | p :: _ => p.completed
      | [] => false) = false := by
    cases hpf : progressFor s studentId chapterId with
    | nil => rfl
    | cons q rest =>
      have hq : q ∈ progressFor s studentId chapterId :=
        hpf ▸ List.mem_cons_self _ _
      obtain ⟨hqm, hqk⟩ := List.mem_filter.mp hq
      simp only [Bool.and_eq_true, beq_iff_eq] at hqk
      exact hnotdone q hqm hqk.1 hqk.2
  have hc1 : (decide (1 < ch.sequenceOrder) &&
      prevCheckFails (previousChapterRows s studentId ch.courseId
        (ch.sequenceOrder - 1))) = false := by
    rcases hunlocked with h1 | ⟨prev, hprev, hpcourse, hporder, p, hp, hps,
        hpcid, hpcompl⟩
    · simp [h1]
    · have hfil := prevChapters_eq_singleton s ch prev hprev hpcourse
        (by omega) hnd hsequ
      have hpfs := progressFor_eq_singleton s studentId prev.id p hp hps
        hpcid hpnd hpkey
      rw [prevCheckFails_eq_false_of s studentId ch prev p hfil hpfs hpcompl]
      simp
  have h₁ := completeChapter_success_eq s studentId chapterId now1 ch hch
    henr hc1 hc2
  obtain ⟨f1, f2, f3, f4⟩ :=
    upsertProgress_row s studentId chapterId ch.courseId now1
  have hchap := upsertProgress_chapters s studentId chapterId ch.courseId now1
  have henrls :=
    upsertProgress_enrollments s studentId chapterId ch.courseId now1
  refine ⟨?_, ?_, ?_⟩
  · rw [h₁]
    simp [successRow, f1, f2, f3, f4]
  · rw [h₁]
    have hch₁ : findChapter
        (upsertProgress s studentId chapterId ch.courseId now1).1 chapterId =
        some ch := by
      rw [findChapter_congr s _ hchap]; exact hch
    have henr₁ : isEnrolled
        (upsertProgress s studentId chapterId ch.courseId now1).1 ch.courseId
        studentId = true := by
      rw [isEnrolled_congr s _ henrls]; exact henr
    have hc1₁ : (decide (1 < ch.sequenceOrder) &&
        prevCheckFails (previousChapterRows
          (upsertProgress s studentId chapterId ch.courseId now1).1 studentId
          ch.courseId (ch.sequenceOrder - 1))) = false := by
      rcases hunlocked with h1 | ⟨prev, hprev, hpcourse, hporder, p, hp, hps,
          hpcid, hpcompl⟩
      · simp [h1]
      · have hprevne : ¬(studentId = studentId ∧ prev.id = chapterId) := by
          rintro ⟨-, hpe⟩
          have hpceq : prev = ch := hids prev hprev ch hchm (hpe.trans hchid.symm)
          rw [hpceq] at hporder
          omega
        have hfil : (upsertProgress s studentId chapterId ch.courseId
              now1).1.chapters.filter (fun c => c.courseId == ch.courseId &&
            c.sequenceOrder == ch.sequenceOrder - 1) = [prev] := by
          rw [hchap]
          exact prevChapters_eq_singleton s ch prev hprev hpcourse
            (by omega) hnd hsequ
        have hpfs : progressFor
            (upsertProgress s studentId chapterId ch.courseId now1).1
            studentId prev.id = [p] := by
          rw [upsertProgress_progressFor_frame s studentId chapterId
            ch.courseId now1 studentId prev.id hprevne]
          exact progressFor_eq_singleton s studentId prev.id p hp hps hpcid
            hpnd hpkey
        rw [prevCheckFails_eq_false_of _ studentId ch prev p hfil hpfs hpcompl]
        simp
    have hc2₁ : (match progressFor
        (upsertProgress s studentId chapterId ch.courseId now1).1 studentId
        chapterId with
        | p :: _ => p.completed
        | [] => false) = true := by
      obtain ⟨hne, hall⟩ :=
        upsertProgress_filter_key s studentId chapterId ch.courseId now1
      cases hpf : progressFor
          (upsertProgress s studentId chapterId ch.courseId now1).1 studentId
          chapterId with
      | nil => exact absurd hpf hne
      | cons q rest =>
        have hq : q ∈ progressFor
            (upsertProgress s studentId chapterId ch.courseId now1).1 studentId
            chapterId := hpf ▸ List.mem_cons_self _ _
        exact hall q hq
    exact completeChapter_already_eq _ studentId chapterId now2 ch hch₁
      henr₁ hc1₁ hc2₁
  · rw [h₁]
    exact upsertProgress_countP_key s studentId chapterId ch.courseId now1
      hpnd hpkey

/-- C3 witness: in `resetDemoStore` (chapter 1 completed) student 10 can
complete chapter 2 once, and the repeated call is rejected. -/
theorem c3_complete_twice_witness :
    ((successRow (completeChapter resetDemoStore 10 2 3).1).map
        (fun pr => (pr.studentId, pr.chapterId, pr.completed, pr.completedAt))
      = some (10, 2, true, some 3)) ∧
    completeChapter (completeChapter resetDemoStore 10 2 3).2 10 2 4
      = (Sum.inl CompleteError.alreadyCompleted,
         (completeChapter resetDemoStore 10 2 3).2) ∧
    (completeChapter resetDemoStore 10 2 3).2.progress.countP
      (fun p => p.studentId == 10 && p.chapterId == 2) ≤ 1 :=
  c3_complete_twice resetDemoStore 10 2 3 4 ⟨2, 1, 2⟩ (by decide) (by decide)
    (by decide) (by decide) (by decide) (by decide) (by decide) (by decide)
    (by decide)

/-- C6: `resetProgress` of an enrolled student deletes exactly the progress
rows of that (student, course) pair — enrollments, chapters, courses and
certificates are untouched and other progress rows survive — and a
subsequent `getCourseProgress` shows every chapter of the course as not
completed, with order-1 chapters unlocked and all others locked; for a
student who is not enrolled it fails with the forbidden result and deletes
nothing.  The hypothesis is the schema consistency of `progress.course_id`
with the chapter's course. -/
theorem c6_reset (s : Store) (studentId courseId : Nat)
    (hpc : ∀ p ∈ s.progress, ∀ ch ∈ s.chapters, p.chapterId = ch.id →
        p.courseId = ch.courseId) :
    (isEnrolled s courseId studentId = false →
      resetProgress s studentId courseId = (ResetResult.notEnrolled, s)) ∧
    (isEnrolled s courseId studentId = true →
      (resetProgress s studentId courseId).1 = ResetResult.ok ∧
      (resetProgress s studentId courseId).2.enrollments = s.enrollments ∧
      (resetProgress s studentId courseId).2.chapters = s.chapters ∧
      (resetProgress s studentId courseId).2.courses = s.courses ∧
      (resetProgress s studentId courseId).2.certificates = s.certificates ∧
      (∀ p ∈ (resetProgress s studentId courseId).2.progress,
        ¬(p.studentId = studentId ∧ p.courseId = courseId)) ∧
      (∀ p ∈ s.progress, ¬(p.studentId = studentId ∧ p.courseId = courseId) →
        p ∈ (resetProgress s studentId courseId).2.progress) ∧
      (∀ v, getCourseProgress (resetProgress s studentId courseId).2 studentId
          courseId = GetProgressResult.ok v →
        ∀ e ∈ v.chapters, e.completed = false ∧
          (e.sequence_order = 1 → e.is_unlocked = true) ∧
          (e.sequence_order ≠ 1 → e.is_unlocked = false))) := by
  constructor
  · intro h
    unfold resetProgress
    rw [if_neg (by simp [h])]
  · intro henr
    have hrun : resetProgress s studentId courseId = (ResetResult.ok,
        { s with progress :=
            s.progress.filter (fun p => !(p.studentId == studentId && p.courseId == courseId)) }) := by
      unfold resetProgress
      rw [if_pos henr]
    rw [hrun]
    have hgone : ∀ p ∈ s.progress.filter
        (fun p => !(p.studentId == studentId && p.courseId == courseId)),
        ¬(p.studentId = studentId ∧ p.courseId = courseId) := by
      intro p hp
      obtain ⟨-, hkeep⟩ := List.mem_filter.mp hp
      simp only [Bool.not_eq_true', Bool.and_eq_false_iff, beq_eq_false_iff_ne,
        ne_eq] at hkeep
      tauto
    refine ⟨rfl, rfl, rfl, rfl, rfl, hgone, ?_, ?_⟩
    · intro p hp hother
      refine List.mem_filter.mpr ⟨hp, ?_⟩
      simp only [Bool.not_eq_true', Bool.and_eq_false_iff, beq_eq_false_iff_ne,
        ne_eq]
      tauto
    · intro v hv e he
      rw [getCourseProgress_ok _ studentId courseId v hv] at he
      simp only [courseProgressView, List.mem_map] at he
      obtain ⟨r, hr, rfl⟩ := he
      have hmem := mem_courseJoinRows _ studentId courseId r
        (mem_sortedJoinRows _ studentId courseId r hr)
      obtain ⟨hch, hcc, hjoin⟩ := hmem
      have hsub : ∀ q : ProgressRow, q ∈ s.progress.filter
          (fun p => !(p.studentId == studentId && p.courseId == courseId)) →
          q ∈ s.progress := fun q hq => (List.mem_filter.mp hq).1
      refine ⟨?_, ?_, ?_⟩
      · show rowCompleted r.2 = false
        cases hr2 : r.2 with
        | none => rfl
        | some p =>
          rw [hr2] at hjoin
          obtain ⟨hpm, hpsid, hpcid⟩ :=
            mem_leftJoinProgress_some _ studentId r.1 p hjoin
          have hpcourse : p.courseId = courseId :=
            (hpc p (hsub p hpm) r.1 hch hpcid).trans hcc
          exact absurd ⟨hpsid, hpcourse⟩ (hgone p hpm)
      · intro h1
        show isUnlocked _ studentId r.1 = true
        unfold isUnlocked
        have : r.1.sequenceOrder = 1 := h1
        simp [this]
      · intro h1
        show isUnlocked _ studentId r.1 = false
        rw [← Bool.not_eq_true, isUnlocked_iff]
        rintro (hord | ⟨prev, hprev, hprevc, -, p, hpm, hpsid, hpcid, -⟩)
        · exact h1 hord
        · have hpcourse : p.courseId = courseId :=
            (hpc p (hsub p hpm) prev hprev hpcid).trans (hprevc.trans hcc)
          exact absurd ⟨hpsid, hpcourse⟩ (hgone p hpm)

/-- C6 witness: resetting `resetDemoStore` (chapter 1 completed) deletes
the progress row and relocks chapter 2. -/
theorem c6_reset_witness :
    (isEnrolled resetDemoStore 1 10 = false →
      resetProgress resetDemoStore 10 1 = (ResetResult.notEnrolled, resetDemoStore)) ∧
    (isEnrolled resetDemoStore 1 10 = true →
      (resetProgress resetDemoStore 10 1).1 = ResetResult.ok ∧
      (resetProgress resetDemoStore 10 1).2.enrollments = resetDemoStore.enrollments ∧
      (resetProgress resetDemoStore 10 1).2.chapters = resetDemoStore.chapters ∧
      (resetProgress resetDemoStore 10 1).2.courses = resetDemoStore.courses ∧
      (resetProgress resetDemoStore 10 1).2.certificates = resetDemoStore.certificates ∧
      (∀ p ∈ (resetProgress resetDemoStore 10 1).2.progress,
        ¬(p.studentId = 10 ∧ p.courseId = 1)) ∧
      (∀ p ∈ resetDemoStore.progress, ¬(p.studentId = 10 ∧ p.courseId = 1) →
        p ∈ (resetProgress resetDemoStore 10 1).2.progress) ∧
      (∀ v, getCourseProgress (resetProgress resetDemoStore 10 1).2 10 1 =
          GetProgressResult.ok v →
        ∀ e ∈ v.chapters, e.completed = false ∧
          (e.sequence_order = 1 → e.is_unlocked = true) ∧
          (e.sequence_order ≠ 1 → e.is_unlocked = false))) :=
  c6_reset resetDemoStore 10 1 (by decide)

/-! ### Certificate issuing -/

theorem completionRows_congr (s t : Store) (hc : t.chapters = s.chapters)
    (hp : t.progress = s.progress) (studentId courseId : Nat) :
    completionRows t studentId courseId = completionRows s studentId courseId := by
  unfold completionRows courseChapters
  rw [hc]
  have hjoin : leftJoinProgress t studentId = leftJoinProgress s studentId := by
    funext ch
    unfold leftJoinProgress progressFor
    rw [hp]
  rw [hjoin]

theorem checkCertificateEligibility_congr (s t : Store)
    (he : t.enrollments = s.enrollments) (hc : t.chapters = s.chapters)
    (hp : t.progress = s.progress) (studentId courseId : Nat) :
    checkCertificateEligibility t studentId courseId =
      checkCertificateEligibility s studentId courseId := by
  unfold checkCertificateEligibility totalChapters completedChapters
  rw [isEnrolled_congr s t he, completionRows_congr s t hc hp]

theorem getCertificate_eligible_eq (s : Store) (studentId courseId : Nat)
    (helig : (checkCertificateEligibility s studentId courseId).eligible = true) :
    getCertificate s studentId courseId =
      (match s.certificates.filter
          (fun c => c.studentId == studentId && c.courseId == courseId) with
       | c :: _ => (CertResult.issued c, s)
       | [] => (CertResult.issued ⟨s.nextCertId, studentId, courseId⟩,
           { s with
             certificates := s.certificates ++ [⟨s.nextCertId, studentId, courseId⟩],
             nextCertId := s.nextCertId + 1 })) := by
  unfold getCertificate
  simp only [helig, if_true]

/-- C8: when the student is eligible, `getCertificate` issues or fetches
idempotently: a pre-existing record for the pair is returned with the store
untouched, otherwise exactly one record (with the next fresh id) is
appended; the immediately repeated call returns the identical result and
store, and exactly one record for the pair exists afterwards. -/
theorem c8_issueOrFetch (s : Store) (studentId courseId : Nat)
    (helig : (checkCertificateEligibility s studentId courseId).eligible = true)
    (hcount : s.certificates.countP
        (fun c => c.studentId == studentId && c.courseId == courseId) ≤ 1) :
    (certOf (getCertificate s studentId courseId).1).isSome = true ∧
    getCertificate (getCertificate s studentId courseId).2 studentId courseId
      = ((getCertificate s studentId courseId).1,
         (getCertificate s studentId courseId).2) ∧
    (getCertificate s studentId courseId).2.certificates.countP
      (fun c => c.studentId == studentId && c.courseId == courseId) = 1 ∧
    (∀ c ∈ s.certificates, c.studentId = studentId → c.courseId = courseId →
      (getCertificate s studentId courseId).1 = CertResult.issued c ∧
      (getCertificate s studentId courseId).2 = s) ∧
    ((∀ c ∈ s.certificates, ¬(c.studentId = studentId ∧ c.courseId = courseId)) →
      certOf (getCertificate s studentId courseId).1 =
        some ⟨s.nextCertId, studentId, courseId⟩ ∧
      (getCertificate s studentId courseId).2.certificates =
        s.certificates ++ [⟨s.nextCertId, studentId, courseId⟩]) := by
  have h₁ := getCertificate_eligible_eq s studentId courseId helig
  cases hf : s.certificates.filter
      (fun c => c.studentId == studentId && c.courseId == courseId) with
  | cons c0 rest =>
    rw [hf] at h₁
    replace h₁ : getCertificate s studentId courseId =
        (CertResult.issued c0, s) := by rw [h₁]
    have hc0 : c0 ∈ s.certificates.filter
        (fun c => c.studentId == studentId && c.courseId == courseId) :=
      hf ▸ List.mem_cons_self _ _
    obtain ⟨hc0m, hc0k⟩ := List.mem_filter.mp hc0
    refine ⟨by rw [h₁]; rfl, ?_, ?_, ?_, ?_⟩
    · rw [h₁]
      exact h₁
    · rw [h₁]
      rw [List.countP_eq_length_filter, hf]
      have hrest : rest = [] := by
        have hlen : (c0 :: rest).length ≤ 1 := by
          rw [← hf, ← List.countP_eq_length_filter]
          exact hcount
        exact List.eq_nil_of_length_eq_zero (by simpa using hlen)
      rw [hrest]
      rfl
    · intro c hcm hcs hcc
      have hsing := filter_eq_singleton_of s.certificates
        (fun c => c.studentId == studentId && c.courseId == courseId) c hcm
        (by simp [hcs, hcc]) hcount
      rw [hsing] at hf
      obtain ⟨hc0e, -⟩ := List.cons.inj hf.symm
      rw [h₁, hc0e]
      exact ⟨rfl, rfl⟩
    · intro hnone
      simp only [Bool.and_eq_true, beq_iff_eq] at hc0k
      exact absurd ⟨hc0k.1, hc0k.2⟩ (hnone c0 hc0m)
  | nil =>
    rw [hf] at h₁
    replace h₁ : getCertificate s studentId courseId =
        (CertResult.issued ⟨s.nextCertId, studentId, courseId⟩,
         { s with
           certificates := s.certificates ++ [⟨s.nextCertId, studentId, courseId⟩],
           nextCertId := s.nextCertId + 1 }) := by rw [h₁]
    have hcnt0 : s.certificates.countP
        (fun c => c.studentId == studentId && c.courseId == courseId) = 0 := by
      rw [List.countP_eq_length_filter, hf]
      rfl
    have helig₂ : (checkCertificateEligibility
        (getCertificate s studentId courseId).2 studentId courseId).eligible
        = true := by
      rw [h₁]
      show (checkCertificateEligibility
        { s with
          certificates := s.certificates ++ [⟨s.nextCertId, studentId, courseId⟩],
          nextCertId := s.nextCertId + 1 } studentId courseId).eligible = true
      rw [checkCertificateEligibility_congr s
        { s with
          certificates := s.certificates ++ [⟨s.nextCertId, studentId, courseId⟩],
          nextCertId := s.nextCertId + 1 } rfl rfl rfl]
      exact helig
    have h₂ := getCertificate_eligible_eq
      (getCertificate s studentId courseId).2 studentId courseId helig₂
    have hstep : (getCertificate s studentId courseId).2.certificates.filter
        (fun c => c.studentId == studentId && c.courseId == courseId)
        = [⟨s.nextCertId, studentId, courseId⟩] := by
      rw [h₁]
      show (s.certificates ++ [(⟨s.nextCertId, studentId, courseId⟩ :
          Certificate)]).filter _ = _
      rw [List.filter_append, hf]
      simp
    refine ⟨by rw [h₁]; rfl, ?_, ?_, ?_, ?_⟩
    · rw [hstep] at h₂
      replace h₂ : getCertificate (getCertificate s studentId courseId).2
          studentId courseId =
          (CertResult.issued ⟨s.nextCertId, studentId, courseId⟩,
           (getCertificate s studentId courseId).2) := by rw [h₂]
      rw [h₂, h₁]
    · rw [h₁]
      show (s.certificates ++ [(⟨s.nextCertId, studentId, courseId⟩ :
          Certificate)]).countP _ = 1
      rw [List.countP_append, hcnt0]
      simp
    · intro c hcm hcs hcc
      have hin : c ∈ s.certificates.filter
          (fun c => c.studentId == studentId && c.courseId == courseId) :=
        List.mem_filter.mpr ⟨hcm, by simp [hcs, hcc]⟩
      rw [hf] at hin
      cases hin
    · intro hnone
      rw [h₁]
      exact ⟨rfl, rfl⟩

/-- In `doneStore` the single chapter is completed, so student 10 is
eligible at 100%. -/
theorem doneStore_eligibility :
    checkCertificateEligibility doneStore 10 1 =
      { eligible := true, message := none, percentage := some 100 } := by
  norm_num [checkCertificateEligibility, isEnrolled, totalChapters,
    completedChapters, completionRows, courseChapters, leftJoinProgress,
    progressFor, rowCompleted, doneStore]

/-- C8 witness: issuing against `doneStore` creates certificate 100 once
and the repeated call fetches the same record. -/
theorem c8_issueOrFetch_witness :
    (certOf (getCertificate doneStore 10 1).1).isSome = true ∧
    getCertificate (getCertificate doneStore 10 1).2 10 1
      = ((getCertificate doneStore 10 1).1, (getCertificate doneStore 10 1).2) ∧
    (getCertificate doneStore 10 1).2.certificates.countP
      (fun c => c.studentId == 10 && c.courseId == 1) = 1 ∧
    (∀ c ∈ doneStore.certificates, c.studentId = 10 → c.courseId = 1 →
      (getCertificate doneStore 10 1).1 = CertResult.issued c ∧
      (getCertificate doneStore 10 1).2 = doneStore) ∧
    ((∀ c ∈ doneStore.certificates, ¬(c.studentId = 10 ∧ c.courseId = 1)) →
      certOf (getCertificate doneStore 10 1).1 =
        some ⟨doneStore.nextCertId, 10, 1⟩ ∧
      (getCertificate doneStore 10 1).2.certificates =
        doneStore.certificates ++ [⟨doneStore.nextCertId, 10, 1⟩]) :=
  c8_issueOrFetch doneStore 10 1 (by rw [doneStore_eligibility]) (by decide)

/-! ### Certificate eligibility and the zero-chapter course -/

theorem sortedJoinRows_length (s : Store) (studentId courseId : Nat) :
    (sortedJoinRows s studentId courseId).length =
      totalChapters s studentId courseId := by
  unfold sortedJoinRows totalChapters
  rw [(List.perm_insertionSort _ _).length_eq]
  unfold courseJoinRows completionRows
  rw [List.length_flatMap, List.length_flatMap]
  congr 1
  refine List.map_congr_left (fun ch hch => ?_)
  simp

/-- C7 counterexample: for the zero-chapter course of `emptyCourseStore`
the eligibility result is ineligible but carries no percentage at all
(`none`, not `0`), and the `getMyProgress` aggregate likewise reports the
percentage as SQL `NULL` (`none`), not as `0`. -/
theorem c7_zero_chapters_counterexample :
    (checkCertificateEligibility emptyCourseStore 10 5).eligible = false ∧
    (checkCertificateEligibility emptyCourseStore 10 5).percentage = none ∧
    ¬((checkCertificateEligibility emptyCourseStore 10 5).percentage = some 0) ∧
    (getMyProgress emptyCourseStore 10 5).map (fun v => v.completion_percentage)
      = some none ∧
    ¬((getMyProgress emptyCourseStore 10 5).map (fun v => v.completion_percentage)
      = some (some 0)) := by
  refine ⟨rfl, rfl, ?_, rfl, ?_⟩ <;> · intro h; cases h

/-- C7 (amended): for an enrolled student, eligibility holds exactly when
the course has chapters and the completion fraction equals 100%; a course
with zero chapters is rejected before any division is attempted, but its
reported percentage is absent (`none`) — in the eligibility result and in
the `getMyProgress` aggregate — rather than `0`. -/
theorem c7_eligibility (s : Store) (studentId courseId : Nat)
    (henr : isEnrolled s courseId studentId = true) :
    ((checkCertificateEligibility s studentId courseId).eligible = true ↔
      (0 < totalChapters s studentId courseId ∧
        (completedChapters s studentId courseId : ℚ) /
          (totalChapters s studentId courseId : ℚ) * 100 = 100)) ∧
    (totalChapters s studentId courseId = 0 →
      (checkCertificateEligibility s studentId courseId).eligible = false ∧
      (checkCertificateEligibility s studentId courseId).percentage = none ∧
      (∀ v, getMyProgress s studentId courseId = some v →
        v.completion_percentage = none)) := by
  have hle : completedChapters s studentId courseId ≤
      totalChapters s studentId courseId := List.countP_le_length _
  constructor
  · unfold checkCertificateEligibility
    rw [if_pos henr]
    by_cases h0 : (totalChapters s studentId courseId == 0) = true
    · rw [if_pos h0]
      have h0' : totalChapters s studentId courseId = 0 := by simpa using h0
      simp [h0']
    · rw [if_neg h0]
      have h0' : 0 < totalChapters s studentId courseId :=
        Nat.pos_of_ne_zero (by simpa using h0)
      by_cases hlt : (completedChapters s studentId courseId : ℚ) /
          (totalChapters s studentId courseId : ℚ) * 100 < 100
      · rw [if_pos hlt]
        constructor
        · intro h; cases h
        · rintro ⟨-, he⟩
          rw [he] at hlt
          exact absurd hlt (lt_irrefl 100)
      · rw [if_neg hlt]
        have hcast : (completedChapters s studentId courseId : ℚ) ≤
            (totalChapters s studentId courseId : ℚ) := by exact_mod_cast hle
        have htpos : (0 : ℚ) < (totalChapters s studentId courseId : ℚ) := by
          exact_mod_cast h0'
        have hub : (completedChapters s studentId courseId : ℚ) /
            (totalChapters s studentId courseId : ℚ) * 100 ≤ 100 := by
          have h1 : (completedChapters s studentId courseId : ℚ) /
              (totalChapters s studentId courseId : ℚ) ≤ 1 :=
            (div_le_one htpos).mpr hcast
          calc (completedChapters s studentId courseId : ℚ) /
              (totalChapters s studentId courseId : ℚ) * 100
              ≤ 1 * 100 := by
                exact mul_le_mul_of_nonneg_right h1 (by norm_num)
            _ = 100 := one_mul 100
        have heq : (completedChapters s studentId courseId : ℚ) /
            (totalChapters s studentId courseId : ℚ) * 100 = 100 :=
          le_antisymm hub (not_lt.mp hlt)
        simp [h0', heq]
  · intro h0'
    have h0 : (totalChapters s studentId courseId == 0) = true := by
      simpa using h0'
    refine ⟨?_, ?_, ?_⟩
    · unfold checkCertificateEligibility
      rw [if_pos henr, if_pos h0]
    · unfold checkCertificateEligibility
      rw [if_pos henr, if_pos h0]
    · intro v hv
      unfold getMyProgress at hv
      by_cases hcond : (isEnrolled s courseId studentId &&
          s.courses.any (fun c => c.id == courseId)) = true
      · rw [if_pos hcond] at hv
        have hv' : courseProgressView s studentId courseId = v := by
          injection hv
        subst hv'
        show sqlPercentage _ (sortedJoinRows s studentId courseId).length = none
        rw [sortedJoinRows_length, h0']
        rfl
      · rw [if_neg hcond] at hv
        cases hv

/-- C7 amended-claim witness: `doneStore` (one chapter, completed) is
eligible, and the characterisation applies to it. -/
theorem c7_eligibility_witness :
    ((checkCertificateEligibility doneStore 10 1).eligible = true ↔
      (0 < totalChapters doneStore 10 1 ∧
        (completedChapters doneStore 10 1 : ℚ) /
          (totalChapters doneStore 10 1 : ℚ) * 100 = 100)) ∧
    (totalChapters doneStore 10 1 = 0 →
      (checkCertificateEligibility doneStore 10 1).eligible = false ∧
      (checkCertificateEligibility doneStore 10 1).percentage = none ∧
      (∀ v, getMyProgress doneStore 10 1 = some v →
        v.completion_percentage = none)) :=
  c7_eligibility doneStore 10 1 (by decide)

/-! ### Atomicity of the chapter delete and reindex -/

/-- C10: `deleteChapter` is literally the delete statement followed by the
separate reindex statement — there is no enclosing transaction — and the
store visible between the two statements holds the gapped orders `[1, 3, 4]`
for the four-chapter course after deleting the order-2 chapter; only after
the second statement are the orders dense again. -/
theorem c10_delete_not_atomic :
    deleteChapter fourChapterStore 1 2 7 =
      (DeleteResult.ok, reindexStep (deleteChapterStep fourChapterStore 2) 1 2) ∧
    courseOrders (deleteChapterStep fourChapterStore 2) 1 = [1, 3, 4] ∧
    ¬ (courseOrders (deleteChapterStep fourChapterStore 2) 1).Perm
        (denseOrders 3) ∧
    courseOrders (reindexStep (deleteChapterStep fourChapterStore 2) 1 2) 1 =
      denseOrders 3 := by
  refine ⟨by decide, by decide, ?_, by decide⟩
  decide

/-! ### Dense reindexing after a chapter delete -/

theorem not_mem_denseOrders (m : Nat) : ((m : Int) + 1) ∉ denseOrders m := by
  intro h
  simp only [denseOrders, List.mem_map, List.mem_range] at h
  obtain ⟨i, hi, he⟩ := h
  omega

theorem denseOrders_split (n m : Nat) (h : m ≤ n) :
    denseOrders n =
      denseOrders m ++ (List.range (n - m)).map (fun i : Nat => (i : Int) + m + 1) := by
  unfold denseOrders
  conv_lhs => rw [show n = m + (n - m) by omega]
  rw [List.range_add, List.map_append, List.map_map]
  congr 1
  refine List.map_congr_left (fun i hi => ?_)
  simp only [Function.comp_apply]
  push_cast
  ring

/-- Erasing the order `m + 1` from the dense orders `1..n` and decrementing
every larger order yields the dense orders `1..(n-1)`. -/
theorem map_dec_erase_denseOrders (n m : Nat) (hm : m < n) :
    ((denseOrders n).erase ((m : Int) + 1)).map
      (fun o => if (m : Int) + 1 < o then o - 1 else o) = denseOrders (n - 1) := by
  have h1 : denseOrders n = denseOrders m ++ ((m : Int) + 1) ::
      (List.range (n - m - 1)).map (fun i : Nat => (i : Int) + m + 2) := by
    rw [denseOrders_split n m (Nat.le_of_lt hm)]
    congr 1
    rw [show n - m = (n - m - 1) + 1 by omega, List.range_succ_eq_map,
      List.map_cons, List.map_map]
    congr 1
    · push_cast
      ring
    · refine List.map_congr_left (fun i hi => ?_)
      simp only [Function.comp_apply, Nat.succ_eq_add_one]
      push_cast
      ring
  rw [h1, List.erase_append_right _ (not_mem_denseOrders m),
    List.erase_cons_head, List.map_append]
  rw [denseOrders_split (n - 1) m (by omega)]
  congr 1
  · refine (List.map_congr_left ?_).trans (List.map_id _)
    intro o ho
    simp only [denseOrders, List.mem_map, List.mem_range] at ho
    obtain ⟨j, hj, rfl⟩ := ho
    rw [if_neg (by omega)]
    rfl
  · rw [List.map_map, show n - 1 - m = n - m - 1 by omega]
    refine List.map_congr_left (fun i hi => ?_)
    simp only [Function.comp_apply]
    rw [if_pos (by omega)]
    ring

theorem reindexChapter_courseId (c : Nat) (k : Int) (x : Chapter) :
    (reindexChapter c k x).courseId = x.courseId := by
  unfold reindexChapter
  split <;> rfl

theorem reindexChapter_seq (c : Nat) (k : Int) (x : Chapter)
    (hc : x.courseId = c) :
    (reindexChapter c k x).sequenceOrder =
      if k < x.sequenceOrder then x.sequenceOrder - 1 else x.sequenceOrder := by
  unfold reindexChapter
  by_cases h : k < x.sequenceOrder
  · rw [if_pos (by simp [hc, h]), if_pos h]
  · rw [if_neg (by simp [hc, h]), if_neg h]

/-- C4: deleting an owned chapter removes it and decrements the order of
every later chapter of the same course; when the course held the dense
orders `1..n`, the remaining chapters hold the dense orders `1..(n-1)` and
their relative order is preserved. -/
theorem c4_delete_reindex (s : Store) (courseId chapterId mentorId : Nat)
    (n : Nat) (ch : Chapter)
    (hck : chapterOwnedCheck s chapterId courseId mentorId = some ch)
    (hnd : s.chapters.Nodup)
    (hids : ∀ a ∈ s.chapters, ∀ b ∈ s.chapters, a.id = b.id → a = b)
    (hdense : (courseOrders s courseId).Perm (denseOrders n)) :
    (deleteChapter s courseId chapterId mentorId).1 = DeleteResult.ok ∧
    ((courseOrders (deleteChapter s courseId chapterId mentorId).2
        courseId).Perm (denseOrders (n - 1))) ∧
    (∀ a ∈ s.chapters, ∀ b ∈ s.chapters, a.courseId = courseId →
      b.courseId = courseId → a.id ≠ chapterId → b.id ≠ chapterId →
      a.sequenceOrder < b.sequenceOrder →
      reindexChapter courseId ch.sequenceOrder a ∈
        (deleteChapter s courseId chapterId mentorId).2.chapters ∧
      (reindexChapter courseId ch.sequenceOrder a).sequenceOrder <
        (reindexChapter courseId ch.sequenceOrder b).sequenceOrder) := by
  obtain ⟨hchm, hpred⟩ := head?_filter_spec _ _ _ hck
  simp only [Bool.and_eq_true, beq_iff_eq] at hpred
  have hchid : ch.id = chapterId := by tauto
  have hchc : ch.courseId = courseId := by tauto
  have hdel : deleteChapter s courseId chapterId mentorId =
      (DeleteResult.ok,
       reindexStep (deleteChapterStep s chapterId) courseId
         ch.sequenceOrder) := by
    unfold deleteChapter
    rw [hck]
  have hLnd : (s.chapters.filter (fun c => c.courseId == courseId)).Nodup :=
    hnd.filter _
  have hchL : ch ∈ s.chapters.filter (fun c => c.courseId == courseId) :=
    List.mem_filter.mpr ⟨hchm, by simp [hchc]⟩
  have hdenseNodup : (denseOrders n).Nodup := by
    unfold denseOrders
    refine List.Nodup.map ?_ (List.nodup_range n)
    intro i j hij
    have hij' : (i : Int) + 1 = (j : Int) + 1 := hij
    omega
  have hmapnd : (courseOrders s courseId).Nodup :=
    (hdense.nodup_iff).mpr hdenseNodup
  have hsequL : ∀ ⦃x : Chapter⦄,
      x ∈ s.chapters.filter (fun c => c.courseId == courseId) →
      ∀ ⦃y : Chapter⦄,
      y ∈ s.chapters.filter (fun c => c.courseId == courseId) →
      x.sequenceOrder = y.sequenceOrder → x = y :=
    List.inj_on_of_nodup_map hmapnd
  have hperm1 : List.Perm
      ((s.chapters.filter (fun c => c.courseId == courseId)).map
        (fun c : Chapter => c.sequenceOrder))
      (ch.sequenceOrder ::
        ((s.chapters.filter (fun c => c.courseId == courseId)).erase ch).map
          (fun c : Chapter => c.sequenceOrder)) := by
    simpa using (List.perm_cons_erase hchL).map
      (fun c : Chapter => c.sequenceOrder)
  have hsplit := List.cons_perm_iff_perm_erase.mp (hperm1.symm.trans hdense)
  have htail := hsplit.2
  obtain ⟨m, hm, hkm⟩ : ∃ m, m < n ∧ (m : Int) + 1 = ch.sequenceOrder := by
    simpa [denseOrders, List.mem_map, List.mem_range] using hsplit.1
  have hchapters : (deleteChapter s courseId chapterId mentorId).2.chapters =
      (s.chapters.filter (fun c => !(c.id == chapterId))).map
        (reindexChapter courseId ch.sequenceOrder) := by
    rw [hdel]
    rfl
  have hres : courseOrders (deleteChapter s courseId chapterId mentorId).2
        courseId
      = (((s.chapters.filter (fun c => c.courseId == courseId)).erase ch).map
          (·.sequenceOrder)).map
          (fun o => if ch.sequenceOrder < o then o - 1 else o) := by
    unfold courseOrders courseChapters
    rw [hchapters]
    rw [List.filter_map]
    have e1 : (s.chapters.filter (fun c => !(c.id == chapterId))).filter
        ((fun c => c.courseId == courseId) ∘
          reindexChapter courseId ch.sequenceOrder)
        = (s.chapters.filter (fun c => !(c.id == chapterId))).filter
          (fun c => c.courseId == courseId) := by
      refine List.filter_congr (fun c hc => ?_)
      simp [Function.comp, reindexChapter_courseId]
    rw [e1]
    have e2 : (s.chapters.filter (fun c => !(c.id == chapterId))).filter
        (fun c => c.courseId == courseId)
        = (s.chapters.filter (fun c => c.courseId == courseId)).filter
          (fun c => !(c.id == chapterId)) := by
      rw [List.filter_filter, List.filter_filter]
      refine List.filter_congr (fun c hc => ?_)
      exact Bool.and_comm _ _
    rw [e2]
    have e3 : (s.chapters.filter (fun c => c.courseId == courseId)).filter
        (fun c => !(c.id == chapterId))
        = (s.chapters.filter (fun c => c.courseId == courseId)).erase ch := by
      rw [hLnd.erase_eq_filter]
      refine List.filter_congr (fun c hc => ?_)
      by_cases hcid : c.id = chapterId
      · have hce : c = ch :=
          hids c (List.mem_filter.mp hc).1 ch hchm (hcid.trans hchid.symm)
        subst hce
        simp [hcid]
      · have hne : c ≠ ch := fun he => hcid (he ▸ hchid)
        have hb1 : (c.id == chapterId) = false := by simp [hcid]
        have hb2 : (c != ch) = true := by simp [hne]
        rw [hb1, hb2]
        rfl
    rw [e3]
    rw [List.map_map, List.map_map]
    refine List.map_congr_left (fun c hc => ?_)
    have hcL := List.mem_of_mem_erase hc
    have hcc : c.courseId = courseId := by
      simpa using (List.mem_filter.mp hcL).2
    simp only [Function.comp_apply]
    exact reindexChapter_seq courseId ch.sequenceOrder c hcc
  refine ⟨by rw [hdel], ?_, ?_⟩
  · rw [hres]
    refine (htail.map _).trans ?_
    rw [← hkm, map_dec_erase_denseOrders n m hm]
  · intro a ha b hb hac hbc haid hbid hab
    have haL : a ∈ s.chapters.filter (fun c => c.courseId == courseId) :=
      List.mem_filter.mpr ⟨ha, by simp [hac]⟩
    have hbL : b ∈ s.chapters.filter (fun c => c.courseId == courseId) :=
      List.mem_filter.mpr ⟨hb, by simp [hbc]⟩
    have hane : a.sequenceOrder ≠ ch.sequenceOrder := by
      intro he
      have hae : a = ch := hsequL haL hchL he
      exact haid (hae ▸ hchid)
    have hbne : b.sequenceOrder ≠ ch.sequenceOrder := by
      intro he
      have hbe : b = ch := hsequL hbL hchL he
      exact hbid (hbe ▸ hchid)
    constructor
    · rw [hchapters]
      exact List.mem_map_of_mem _ (List.mem_filter.mpr ⟨ha, by simp [haid]⟩)
    · rw [reindexChapter_seq _ _ a hac, reindexChapter_seq _ _ b hbc]
      by_cases h1 : ch.sequenceOrder < a.sequenceOrder
      · rw [if_pos h1, if_pos (by omega)]
        omega
      · rw [if_neg h1]
        by_cases h2 : ch.sequenceOrder < b.sequenceOrder
        · rw [if_pos h2]
          omega
        · rw [if_neg h2]
          omega

/-- C4 witness: deleting the order-2 chapter of the four-chapter course
leaves the dense orders 1..3, with chapters 1 and 3 keeping their relative
order. -/
theorem c4_delete_reindex_witness :
    (deleteChapter fourChapterStore 1 2 7).1 = DeleteResult.ok ∧
    ((courseOrders (deleteChapter fourChapterStore 1 2 7).2 1).Perm
      (denseOrders (4 - 1))) ∧
    (∀ a ∈ fourChapterStore.chapters, ∀ b ∈ fourChapterStore.chapters,
      a.courseId = 1 → b.courseId = 1 → a.id ≠ 2 → b.id ≠ 2 →
      a.sequenceOrder < b.sequenceOrder →
      reindexChapter 1 (2 : Int) a ∈
        (deleteChapter fourChapterStore 1 2 7).2.chapters ∧
      (reindexChapter 1 (2 : Int) a).sequenceOrder <
        (reindexChapter 1 (2 : Int) b).sequenceOrder) :=
  c4_delete_reindex fourChapterStore 1 2 7 4 ⟨2, 1, 2⟩ (by decide) (by decide)
    (by decide) (by decide)

end LMS
